import Mathlib

/-!
Verification of the Medbot feed-ingestion pipeline (src/main.py).

The program polls RSS job feeds, filters new entries against a persisted
seen-job set, formats and delivers notifications, and persists the set at
cycle end when anything was delivered.  This file shallowly embeds the
pipeline: pure text processing (`stripTags`, the labelled-field search of
`extract_job_details`, `format_message`) is translated directly; the
network is abstracted into oracles (`post`/`notify` functions giving each
HTTP call's outcome, and a `feedOf` function giving each (source, keyword)
pair's fetched-and-parsed entry list, with `none` standing for a transport
failure); Python exceptions raised while iterating a feed's entries are
modelled by an `ok` flag that aborts the remaining entries of the pair,
exactly as the `try`/`except` around the loop does.  Result structures
carry instrumentation (counts of send attempts, HTTP calls, successes, and
the ordered log of successful notifications) so that delivery behaviour
can be stated.
-/

namespace Medbot

/-- Python `\s` on ASCII text: the whitespace class used by `str.strip()`
and by the `[:\s]*` separator of the extraction regexes. -/
def pyWs (c : Char) : Bool :=
  c == ' ' || c == '\t' || c == '\n' || c == '\r' || c == '\x0b' || c == '\x0c'

/-- ASCII lowering, the effect of `re.IGNORECASE` on the ASCII labels. -/
def lowerAscii (c : Char) : Char :=
  if 'A' ≤ c ∧ c ≤ 'Z' then Char.ofNat (c.toNat + 32) else c

/-- Drop trailing Python whitespace. -/
def dropTrailingWs (l : List Char) : List Char :=
  (l.reverse.dropWhile pyWs).reverse

/-- Python `str.strip()` on a character list. -/
def pyStripChars (l : List Char) : List Char :=
  dropTrailingWs (l.dropWhile pyWs)

/-- Python `str.strip()`. -/
def pyStrip (s : String) : String :=
  ⟨pyStripChars s.data⟩

/-- Scan for the `>` closing a markup tag: `re.sub('<.*?>', '', s)` matches
`<`, then lazily any characters other than a newline, then `>`; reaching a
newline or the end of input means no tag starts at this `<`. -/
def splitTag : List Char → Option (List Char)
  | [] => none
  | c :: rest =>
    if c == '>' then some rest
    else if c == '\n' then none
    else splitTag rest

/-- `re.sub('<.*?>', '', s)`, fuelled: every step consumes at least one
character, so fuel equal to the input length always suffices and the
zero-fuel fallback is never reached from `stripTags`. -/
def stripTagsF : Nat → List Char → List Char
  | 0, l => l
  | _ + 1, [] => []
  | fuel + 1, c :: rest =>
    if c == '<' then
      match splitTag rest with
      | some r => stripTagsF fuel r
      | none => c :: stripTagsF fuel rest
    else c :: stripTagsF fuel rest

/-- `re.sub('<.*?>', '', s)`: remove every non-greedy `<...>` run (a `<`
with no closing `>` before a newline is kept verbatim). -/
def stripTags (l : List Char) : List Char := stripTagsF l.length l

/-- A character the `[:\s]*` separator of the field regexes accepts. -/
def sepChar (c : Char) : Bool := c == ':' || pyWs c

/-- The part of `re.search(r'L[:\s]*(.+?)(?:\n|$)', s, re.IGNORECASE)` after
the label has matched, applied to the text `t` following the label: the
greedy separator run, then the lazy non-empty capture of non-newline
characters up to a newline or the end.  When `t` consists only of
separator characters the engine backtracks the separator and captures the
last character of `t` that is not a newline; when every character of `t`
is a newline (or `t` is empty) there is no match here. -/
def matchAfter (t : List Char) : Option (List Char) :=
  match t.dropWhile sepChar with
  | c :: cs => some ((c :: cs).takeWhile (fun d => d != '\n'))
  | [] =>
    match (t.filter (fun d => d != '\n')).getLast? with
    | some c => some [c]
    | none => none

/-- Case-insensitive match of the (ASCII) label against a prefix of `s`. -/
def matchesCI (label s : List Char) : Bool :=
  (s.take label.length).map lowerAscii == label.map lowerAscii

/-- `re.search`: leftmost position where the label matches case-insensitively
and the rest of the pattern matches; yields the captured group. -/
def searchLabel (label : List Char) : List Char → Option (List Char)
  | [] => none
  | c :: rest =>
    if matchesCI label (c :: rest) then
      match matchAfter ((c :: rest).drop label.length) with
      | some g => some g
      | none => searchLabel label rest
    else searchLabel label rest

/-- One labelled-field extraction of `extract_job_details`:
`re.search(r'Label[:\s]*(.+?)(?:\n|$)', snippet, re.IGNORECASE)` followed by
`.group(1).strip()` when a match exists, `None` otherwise. -/
def reFieldSearch (label : String) (snippet : List Char) : Option String :=
  (searchLabel label.data snippet).map (fun g => ⟨pyStripChars g⟩)

/-- One parsed feed entry, with feedparser's duck-typed optional attributes
made explicit: accessing a `none` attribute raises `AttributeError` in the
Python, which the embedding surfaces as `Option` results downstream.
`pubParsed` abstracts `published_parsed`/`published` into the already
rendered date string that `parse_date` would return for the entry (the
wall-clock `strptime`/`mktime` formatting itself is outside the model);
`none` stands for an entry that renders as "N/A". -/
structure Entry where
  idAttr : Option String
  link : Option String
  title : Option String
  summary : Option String
  description : Option String
  pubParsed : Option String
deriving DecidableEq, Repr

/-- `entry.get('id', entry.link)`: Python evaluates the default argument
`entry.link` before the call, so an entry without a `link` attribute raises
even when it has an explicit id; otherwise the id falls back to the link. -/
def job_id (e : Entry) : Option String :=
  match e.link with
  | none => none
  | some l => some (e.idAttr.getD l)

/-- `entry.get('summary', '') or entry.get('description', '') or ''`:
first Python-truthy (non-empty) alternative. -/
def entrySnippetRaw (e : Entry) : String :=
  let a := e.summary.getD ""
  if a ≠ "" then a
  else
    let b := e.description.getD ""
    if b ≠ "" then b else ""

/-- The result record of `extract_job_details`. -/
structure JobDetails where
  snippet : String
  employer : Option String
  specialty : Option String
  salary : Option String
  location : Option String
deriving DecidableEq, Repr

/-- `extract_job_details`: strip markup from the summary text, then run the
four case-insensitive labelled-field searches on the stripped text. -/
def extract_job_details (e : Entry) : JobDetails :=
  let snip := stripTags (entrySnippetRaw e).data
  { snippet := ⟨pyStripChars snip⟩
    employer := reFieldSearch "Employer" snip
    specialty := reFieldSearch "Specialty" snip
    salary := reFieldSearch "Salary" snip
    location := reFieldSearch "Location" snip }

/-- `parse_date`: the feed's parsed timestamp rendered as `%d %b %Y`, or
"N/A" when absent/unparsable (the rendering itself is abstracted into
`Entry.pubParsed`, see `Entry`). -/
def parse_date (e : Entry) : String := e.pubParsed.getD "N/A"

/-- `format_message`: builds the notification text; accesses `entry.title`
and then `entry.link`, so a missing one raises (`none`). Absent detail
fields (and detail fields extracted as the Python-falsy empty string) are
omitted. -/
def format_message (e : Entry) : Option String :=
  let details := extract_job_details e
  match e.title with
  | none => none
  | some t =>
    match e.link with
    | none => none
    | some l =>
      let m := "🩺 **" ++ pyStrip t ++ "**\n\n"
      let m := m ++ (match details.employer with
        | some v => if v ≠ "" then "🏢 **Employer:** " ++ v ++ "\n" else ""
        | none => "")
      let m := m ++ (match details.location with
        | some v => if v ≠ "" then "📍 **Location:** " ++ v ++ "\n" else ""
        | none => "")
      let m := m ++ (match details.specialty with
        | some v => if v ≠ "" then "⚕️ **Specialty:** " ++ v ++ "\n" else ""
        | none => "")
      let m := m ++ (match details.salary with
        | some v => if v ≠ "" then "💰 **Salary:** " ++ v ++ "\n" else ""
        | none => "")
      let m := m ++ "📅 **Published:** " ++ parse_date e ++ "\n\n"
      some (m ++ "🔗 [**Apply Here**](" ++ l ++ ")")

/-- The delivery configuration: `BOT_TOKEN`/`CHAT_ID`, which default to
their placeholder values when the environment leaves them unset. -/
structure Config where
  bot_token : String
  chat_id : String
deriving DecidableEq, Repr

/-- `send_telegram_message`: with a placeholder token or chat id the send
is skipped and reported as failure without any HTTP call; otherwise one
POST happens and its outcome is the oracle `post`'s verdict (`False` also
covers a raised `RequestException`, which the function catches).  The
second component counts HTTP calls made. -/
def send_telegram_message (cfg : Config) (post : String → Bool)
    (message : String) : Bool × Nat :=
  if cfg.bot_token = "YOUR_BOT_TOKEN" ∨ cfg.chat_id = "YOUR_CHAT_ID" then
    (false, 0)
  else
    (post message, 1)

/-- `SEARCH_KEYWORDS` as configured. -/
def SEARCH_KEYWORDS : List String :=
  ["junior doctor", "clinical fellow", "medical fellow",
   "foundation year 1", "foundation year 2", "foundation house officer 1",
   "foundation house officer 2", "FY1", "FY2", "senior house officer", "SHO",
   "trust doctor", "trust grade doctor", "resident medical officer", "RMO",
   "teaching fellow", "research fellow", "emergency medicine doctor",
   "internal medicine doctor", "medical SHO", "surgical SHO", "paediatric SHO",
   "clinical doctor", "medical doctor", "A&E doctor", "ED doctor",
   "Accident & Emergency doctor"]

/-- The two configured feed sources (NHS Jobs and HealthJobsUK URL
templates). -/
inductive Source
  | nhs
  | hjuk
deriving DecidableEq, Repr

/-- Outcome of processing one fetched feed's entry list: the seen-set after
the pair, plus instrumentation: `sent` is `new_jobs_found_count`
(successful notifications), `attempts` counts `send_telegram_message`
invocations, `calls` counts HTTP POSTs made, `sentLog` records
`(job id, message)` of each successful notification in emission order, and
`ok` is false when a Python exception aborted the remaining entries of the
pair. -/
structure PairResult where
  seen : Finset String
  sent : Nat
  attempts : Nat
  calls : Nat
  sentLog : List (String × String)
  ok : Bool
deriving DecidableEq

/-- Sequential composition of two pair fragments (the second starts from
the first's seen-set). -/
def PairResult.seq (r₁ r₂ : PairResult) : PairResult :=
  ⟨r₂.seen, r₁.sent + r₂.sent, r₁.attempts + r₂.attempts,
   r₁.calls + r₂.calls, r₁.sentLog ++ r₂.sentLog, r₂.ok⟩

/-- The `for entry in ...` loop body of `fetch_and_process_feed`, over the
entries in processing order: compute the job id (raising when `link` is
missing), skip ids already seen, format (raising when `title` is missing),
send, and on success add the id to the seen-set before moving on.  A raise
aborts the remaining entries (`ok := false`) but keeps the additions and
count accumulated so far, exactly as the surrounding `try`/`except` does. -/
def processEntries (notify : String → Bool × Nat) :
    List Entry → Finset String → PairResult
  | [], seen => ⟨seen, 0, 0, 0, [], true⟩
  | e :: rest, seen =>
    match job_id e with
    | none => ⟨seen, 0, 0, 0, [], false⟩
    | some jid =>
      if jid ∈ seen then processEntries notify rest seen
      else
        match format_message e with
        | none => ⟨seen, 0, 0, 0, [], false⟩
        | some msg =>
          let s := notify msg
          if s.1 then
            let r := processEntries notify rest (insert jid seen)
            ⟨r.seen, r.sent + 1, r.attempts + 1, r.calls + s.2,
             (jid, msg) :: r.sentLog, r.ok⟩
          else
            let r := processEntries notify rest seen
            ⟨r.seen, r.sent, r.attempts + 1, r.calls + s.2, r.sentLog, r.ok⟩

/-- `fetch_and_process_feed` for one (source, keyword) pair: `none` stands
for a fetch that raised (timeout/network error), which the function
catches, leaving the seen-set untouched; otherwise the parsed entries are
consumed in reverse feed order.  The boolean is the function's return
value `new_jobs_found_count > 0`. -/
def fetch_and_process_feed (notify : String → Bool × Nat)
    (fetched : Option (List Entry)) (seen : Finset String) :
    PairResult × Bool :=
  match fetched with
  | none => (⟨seen, 0, 0, 0, [], true⟩, false)
  | some es =>
    let r := processEntries notify es.reverse seen
    (r, decide (0 < r.sent))

/-- `load_seen_jobs`: `none` stands for a missing, unreadable or corrupt
store file, which degrades to the empty set; otherwise the persisted list
is materialized as a set. -/
def load_seen_jobs : Option (List String) → Finset String
  | none => ∅
  | some l => l.toFinset

/-- `save_seen_jobs`: the persisted representation, `json.dump(list(s))`.
Python's `list(set)` enumerates in an unspecified order; the model picks
the canonical sorted enumeration (claims about the store are stated up to
permutation of this list). -/
def save_seen_jobs (s : Finset String) : List String :=
  s.sort (fun a b => a ≤ b)

/-- Outcome of one check cycle: final in-memory seen-set, whether
`save_seen_jobs` ran (`any_new_jobs`), and the cycle-wide instrumentation
totals accumulated over the pairs. -/
structure CycleResult where
  seen : Finset String
  saved : Bool
  sent : Nat
  attempts : Nat
  calls : Nat
  sentLog : List (String × String)
deriving DecidableEq

/-- The two keyword loops of `check_for_new_jobs`, flattened into the list
of per-pair fetch outcomes, processed in order against the one shared
in-memory seen-set. -/
def runPairs (notify : String → Bool × Nat) :
    List (Option (List Entry)) → Finset String → Bool → CycleResult
  | [], seen, anyNew => ⟨seen, anyNew, 0, 0, 0, []⟩
  | f :: rest, seen, anyNew =>
    let pr := fetch_and_process_feed notify f seen
    let c := runPairs notify rest pr.1.seen (anyNew || pr.2)
    ⟨c.seen, c.saved, pr.1.sent + c.sent, pr.1.attempts + c.attempts,
     pr.1.calls + c.calls, pr.1.sentLog ++ c.sentLog⟩

/-- The (source, keyword) pair sequence of one cycle: all NHS Jobs
keywords in order, then all HealthJobsUK keywords in order; `feedOf`
gives each pair's fetch-and-parse outcome. -/
def cyclePairs (feedOf : Source → String → Option (List Entry)) :
    List (Option (List Entry)) :=
  SEARCH_KEYWORDS.map (fun k => feedOf Source.nhs k) ++
    SEARCH_KEYWORDS.map (fun k => feedOf Source.hjuk k)

/-- `check_for_new_jobs`: load the store, run every (source, keyword) pair
against the shared seen-set, and persist (`saved`) exactly when some pair
reported new jobs. -/
def check_for_new_jobs (notify : String → Bool × Nat)
    (feedOf : Source → String → Option (List Entry))
    (fileData : Option (List String)) : CycleResult :=
  runPairs notify (cyclePairs feedOf) (load_seen_jobs fileData) false

/-- Modelled from the spec: "Downstream processing must consume entries in
*reverse* of feed order (oldest-first)" — the same per-entry processing,
but defined by structural recursion on the parser's (newest-first) entry
list so that the tail (the older entries) is consumed first and the head
(the newest entry) last; an abort while processing the older entries skips
the newer ones. -/
def chronoProcess (notify : String → Bool × Nat) :
    List Entry → Finset String → PairResult
  | [], seen => ⟨seen, 0, 0, 0, [], true⟩
  | e :: older, seen =>
    let r := chronoProcess notify older seen
    if r.ok then r.seq (processEntries notify [e] r.seen) else r

/-- Case-insensitive (ASCII) check that `needle` occurs as a contiguous
substring of `hay`, both taken as lowered character lists. -/
def isPrefixOfCL : List Char → List Char → Bool
  | [], _ => true
  | _ :: _, [] => false
  | a :: as, b :: bs => a == b && isPrefixOfCL as bs

/-- Substring containment on character lists. -/
def containsSub : List Char → List Char → Bool
  | [], needle => needle.isEmpty
  | c :: t, needle => isPrefixOfCL needle (c :: t) || containsSub t needle

/-- Modelled from the spec: "relevant = any keyword is a case-insensitive
substring of title" (the Entry Filter's optional title-based relevance
check; the revision in src/main.py relies on per-keyword query URLs
instead, so this filter's code is not in src/). -/
def titleRelevant (keywords : List String) (t : String) : Bool :=
  keywords.any (fun k =>
    containsSub (t.data.map lowerAscii) (k.data.map lowerAscii))

/-- Modelled from the spec: the entry loop of `fetch_and_process_feed`
with the title-based keyword filter enabled — "An entry proceeds only if
both `novel` and (if applicable) `relevant`"; an entry that is novel but
not relevant is skipped without a notification attempt and without being
marked seen. -/
def processEntriesFiltered (notify : String → Bool × Nat)
    (keywords : List String) : List Entry → Finset String → PairResult
  | [], seen => ⟨seen, 0, 0, 0, [], true⟩
  | e :: rest, seen =>
    match job_id e with
    | none => ⟨seen, 0, 0, 0, [], false⟩
    | some jid =>
      if jid ∈ seen then processEntriesFiltered notify keywords rest seen
      else
        match e.title with
        | none => ⟨seen, 0, 0, 0, [], false⟩
        | some t =>
          if titleRelevant keywords t then
            match format_message e with
            | none => ⟨seen, 0, 0, 0, [], false⟩
            | some msg =>
              let s := notify msg
              if s.1 then
                let r := processEntriesFiltered notify keywords rest (insert jid seen)
                ⟨r.seen, r.sent + 1, r.attempts + 1, r.calls + s.2,
                 (jid, msg) :: r.sentLog, r.ok⟩
              else
                let r := processEntriesFiltered notify keywords rest seen
                ⟨r.seen, r.sent, r.attempts + 1, r.calls + s.2, r.sentLog, r.ok⟩
          else processEntriesFiltered notify keywords rest seen

/-! ### Unfolding lemmas for the entry loop -/

theorem processEntries_nil (notify : String → Bool × Nat) (s : Finset String) :
    processEntries notify [] s = ⟨s, 0, 0, 0, [], true⟩ := rfl

theorem processEntries_cons_nolink (notify : String → Bool × Nat)
    {e : Entry} (rest : List Entry) (s : Finset String)
    (h : job_id e = none) :
    processEntries notify (e :: rest) s = ⟨s, 0, 0, 0, [], false⟩ := by
  simp [processEntries, h]

theorem processEntries_cons_seen (notify : String → Bool × Nat)
    {e : Entry} (rest : List Entry) {s : Finset String} {jid : String}
    (h : job_id e = some jid) (hm : jid ∈ s) :
    processEntries notify (e :: rest) s = processEntries notify rest s := by
  simp [processEntries, h, hm]

theorem processEntries_cons_notitle (notify : String → Bool × Nat)
    {e : Entry} (rest : List Entry) {s : Finset String} {jid : String}
    (h : job_id e = some jid) (hm : jid ∉ s) (hf : format_message e = none) :
    processEntries notify (e :: rest) s = ⟨s, 0, 0, 0, [], false⟩ := by
  simp [processEntries, h, hm, hf]

theorem processEntries_cons_sent (notify : String → Bool × Nat)
    {e : Entry} (rest : List Entry) {s : Finset String} {jid msg : String}
    (h : job_id e = some jid) (hm : jid ∉ s) (hf : format_message e = some msg)
    (hn : (notify msg).1 = true) :
    processEntries notify (e :: rest) s =
      ⟨(processEntries notify rest (insert jid s)).seen,
       (processEntries notify rest (insert jid s)).sent + 1,
       (processEntries notify rest (insert jid s)).attempts + 1,
       (processEntries notify rest (insert jid s)).calls + (notify msg).2,
       (jid, msg) :: (processEntries notify rest (insert jid s)).sentLog,
       (processEntries notify rest (insert jid s)).ok⟩ := by
  simp [processEntries, h, hm, hf, hn]

theorem processEntries_cons_fail (notify : String → Bool × Nat)
    {e : Entry} (rest : List Entry) {s : Finset String} {jid msg : String}
    (h : job_id e = some jid) (hm : jid ∉ s) (hf : format_message e = some msg)
    (hn : (notify msg).1 = false) :
    processEntries notify (e :: rest) s =
      ⟨(processEntries notify rest s).seen,
       (processEntries notify rest s).sent,
       (processEntries notify rest s).attempts + 1,
       (processEntries notify rest s).calls + (notify msg).2,
       (processEntries notify rest s).sentLog,
       (processEntries notify rest s).ok⟩ := by
  simp [processEntries, h, hm, hf, hn]

/-! ### Structural lemmas for the entry loop -/

/-- The in-memory seen-set only grows while a pair's entries are
processed: no operation removes an id. -/
theorem processEntries_seen_subset (notify : String → Bool × Nat)
    (es : List Entry) (s : Finset String) :
    s ⊆ (processEntries notify es s).seen := by
  induction es generalizing s with
  | nil => simp [processEntries_nil]
  | cons e rest ih =>
    rcases hj : job_id e with _ | jid
    · rw [processEntries_cons_nolink notify rest s hj]
    · by_cases hm : jid ∈ s
      · rw [processEntries_cons_seen notify rest hj hm]
        exact ih s
      · rcases hf : format_message e with _ | msg
        · rw [processEntries_cons_notitle notify rest hj hm hf]
        · by_cases hn : (notify msg).1
          · rw [processEntries_cons_sent notify rest hj hm hf hn]
            exact (Finset.subset_insert jid s).trans (ih (insert jid s))
          · rw [processEntries_cons_fail notify rest hj hm hf
              (Bool.not_eq_true _ ▸ hn)]
            exact ih s

/-- Successful notifications are a subset of the attempts. -/
theorem processEntries_sent_le (notify : String → Bool × Nat)
    (es : List Entry) (s : Finset String) :
    (processEntries notify es s).sent ≤ (processEntries notify es s).attempts := by
  induction es generalizing s with
  | nil => simp [processEntries_nil]
  | cons e rest ih =>
    rcases hj : job_id e with _ | jid
    · rw [processEntries_cons_nolink notify rest s hj]
    · by_cases hm : jid ∈ s
      · rw [processEntries_cons_seen notify rest hj hm]
        exact ih s
      · rcases hf : format_message e with _ | msg
        · rw [processEntries_cons_notitle notify rest hj hm hf]
        · by_cases hn : (notify msg).1
          · rw [processEntries_cons_sent notify rest hj hm hf hn]
            exact Nat.succ_le_succ (ih (insert jid s))
          · rw [processEntries_cons_fail notify rest hj hm hf
              (Bool.not_eq_true _ ▸ hn)]
            exact (ih s).trans (Nat.le_succ _)

/-- The seen-set after a pair is exactly the incoming seen-set plus the
ids of the notifications that succeeded during the pair: an id enters the
set only through a successful notification, and none leaves. -/
theorem processEntries_seen_eq (notify : String → Bool × Nat)
    (es : List Entry) (s : Finset String) :
    (processEntries notify es s).seen =
      s ∪ ((processEntries notify es s).sentLog.map Prod.fst).toFinset := by
  induction es generalizing s with
  | nil => simp [processEntries_nil]
  | cons e rest ih =>
    rcases hj : job_id e with _ | jid
    · rw [processEntries_cons_nolink notify rest s hj]
      simp
    · by_cases hm : jid ∈ s
      · rw [processEntries_cons_seen notify rest hj hm]
        exact ih s
      · rcases hf : format_message e with _ | msg
        · rw [processEntries_cons_notitle notify rest hj hm hf]
          simp
        · by_cases hn : (notify msg).1
          · rw [processEntries_cons_sent notify rest hj hm hf hn]
            have := ih (insert jid s)
            simp only [List.map_cons, List.toFinset_cons]
            rw [this]
            ext x
            simp only [Finset.mem_union, Finset.mem_insert, List.mem_toFinset,
              List.mem_cons]
            tauto
          · rw [processEntries_cons_fail notify rest hj hm hf
              (Bool.not_eq_true _ ▸ hn)]
            exact ih s

/-- The ids successfully notified during a pair are pairwise distinct and
were all novel with respect to the incoming seen-set. -/
theorem processEntries_log_nodup (notify : String → Bool × Nat)
    (es : List Entry) (s : Finset String) :
    ((processEntries notify es s).sentLog.map Prod.fst).Nodup ∧
      ∀ i ∈ (processEntries notify es s).sentLog.map Prod.fst, i ∉ s := by
  induction es generalizing s with
  | nil => simp [processEntries_nil]
  | cons e rest ih =>
    rcases hj : job_id e with _ | jid
    · rw [processEntries_cons_nolink notify rest s hj]
      simp
    · by_cases hm : jid ∈ s
      · rw [processEntries_cons_seen notify rest hj hm]
        exact ih s
      · rcases hf : format_message e with _ | msg
        · rw [processEntries_cons_notitle notify rest hj hm hf]
          simp
        · by_cases hn : (notify msg).1
          · rw [processEntries_cons_sent notify rest hj hm hf hn]
            obtain ⟨h1, h2⟩ := ih (insert jid s)
            simp only [List.map_cons, List.nodup_cons]
            refine ⟨⟨fun hmem => ?_, h1⟩, ?_⟩
            · exact (h2 jid hmem) (Finset.mem_insert_self jid s)
            · intro i hi
              simp only [List.mem_cons] at hi
              rcases hi with rfl | hi
              · exact hm
              · intro his
                exact (h2 i hi) (Finset.mem_insert_of_mem his)
          · rw [processEntries_cons_fail notify rest hj hm hf
              (Bool.not_eq_true _ ▸ hn)]
            exact ih s

/-- Decomposition of the entry loop at a list split: the second half runs
from the first half's seen-set, unless the first half aborted. -/
theorem processEntries_append (notify : String → Bool × Nat)
    (xs ys : List Entry) (s : Finset String) :
    processEntries notify (xs ++ ys) s =
      if (processEntries notify xs s).ok then
        (processEntries notify xs s).seq
          (processEntries notify ys (processEntries notify xs s).seen)
      else processEntries notify xs s := by
  induction xs generalizing s with
  | nil =>
    simp [processEntries_nil, PairResult.seq]
  | cons e rest ih =>
    rcases hj : job_id e with _ | jid
    · rw [List.cons_append, processEntries_cons_nolink notify (rest ++ ys) s hj,
        processEntries_cons_nolink notify rest s hj]
      simp
    · by_cases hm : jid ∈ s
      · rw [List.cons_append, processEntries_cons_seen notify (rest ++ ys) hj hm,
          processEntries_cons_seen notify rest hj hm]
        exact ih s
      · rcases hf : format_message e with _ | msg
        · rw [List.cons_append,
            processEntries_cons_notitle notify (rest ++ ys) hj hm hf,
            processEntries_cons_notitle notify rest hj hm hf]
          simp
        · by_cases hn : (notify msg).1
          · rw [List.cons_append,
              processEntries_cons_sent notify (rest ++ ys) hj hm hf hn,
              processEntries_cons_sent notify rest hj hm hf hn]
            rw [ih (insert jid s)]
            by_cases hok : (processEntries notify rest (insert jid s)).ok
            · simp only [hok, if_true, PairResult.seq]
              simp
              omega
            · simp only [Bool.not_eq_true] at hok
              simp [hok, PairResult.seq]
          · rw [List.cons_append,
              processEntries_cons_fail notify (rest ++ ys) hj hm hf
                (Bool.not_eq_true _ ▸ hn),
              processEntries_cons_fail notify rest hj hm hf
                (Bool.not_eq_true _ ▸ hn)]
            rw [ih s]
            by_cases hok : (processEntries notify rest s).ok
            · simp only [hok, if_true, PairResult.seq]
              simp
              omega
            · simp only [Bool.not_eq_true] at hok
              simp [hok, PairResult.seq]

/-! ### Pair- and cycle-level lemmas -/

theorem fetch_seen_subset (notify : String → Bool × Nat)
    (f : Option (List Entry)) (s : Finset String) :
    s ⊆ (fetch_and_process_feed notify f s).1.seen := by
  cases f with
  | none => simp [fetch_and_process_feed]
  | some es => exact processEntries_seen_subset notify es.reverse s

theorem fetch_sent_le (notify : String → Bool × Nat)
    (f : Option (List Entry)) (s : Finset String) :
    (fetch_and_process_feed notify f s).1.sent ≤
      (fetch_and_process_feed notify f s).1.attempts := by
  cases f with
  | none => simp [fetch_and_process_feed]
  | some es => exact processEntries_sent_le notify es.reverse s

theorem fetch_seen_eq (notify : String → Bool × Nat)
    (f : Option (List Entry)) (s : Finset String) :
    (fetch_and_process_feed notify f s).1.seen =
      s ∪ ((fetch_and_process_feed notify f s).1.sentLog.map Prod.fst).toFinset := by
  cases f with
  | none => simp [fetch_and_process_feed]
  | some es => exact processEntries_seen_eq notify es.reverse s

theorem fetch_log_nodup (notify : String → Bool × Nat)
    (f : Option (List Entry)) (s : Finset String) :
    ((fetch_and_process_feed notify f s).1.sentLog.map Prod.fst).Nodup ∧
      ∀ i ∈ (fetch_and_process_feed notify f s).1.sentLog.map Prod.fst, i ∉ s := by
  cases f with
  | none => simp [fetch_and_process_feed]
  | some es => exact processEntries_log_nodup notify es.reverse s

/-- The boolean a pair reports is exactly "its success count is positive". -/
theorem fetch_flag (notify : String → Bool × Nat)
    (f : Option (List Entry)) (s : Finset String) :
    (fetch_and_process_feed notify f s).2 =
      decide (0 < (fetch_and_process_feed notify f s).1.sent) := by
  cases f with
  | none => simp [fetch_and_process_feed]
  | some es => rfl

theorem runPairs_seen_subset (notify : String → Bool × Nat)
    (ps : List (Option (List Entry))) (s : Finset String) (a : Bool) :
    s ⊆ (runPairs notify ps s a).seen := by
  induction ps generalizing s a with
  | nil => simp [runPairs]
  | cons f rest ih =>
    simp only [runPairs]
    exact (fetch_seen_subset notify f s).trans (ih _ _)

theorem runPairs_sent_le (notify : String → Bool × Nat)
    (ps : List (Option (List Entry))) (s : Finset String) (a : Bool) :
    (runPairs notify ps s a).sent ≤ (runPairs notify ps s a).attempts := by
  induction ps generalizing s a with
  | nil => simp [runPairs]
  | cons f rest ih =>
    simp only [runPairs]
    exact Nat.add_le_add (fetch_sent_le notify f s) (ih _ _)

theorem runPairs_seen_eq (notify : String → Bool × Nat)
    (ps : List (Option (List Entry))) (s : Finset String) (a : Bool) :
    (runPairs notify ps s a).seen =
      s ∪ ((runPairs notify ps s a).sentLog.map Prod.fst).toFinset := by
  induction ps generalizing s a with
  | nil => simp [runPairs]
  | cons f rest ih =>
    simp only [runPairs, List.map_append, List.toFinset_append]
    rw [ih _ _, fetch_seen_eq notify f s]
    rw [Finset.union_assoc]

theorem runPairs_log_nodup (notify : String → Bool × Nat)
    (ps : List (Option (List Entry))) (s : Finset String) (a : Bool) :
    ((runPairs notify ps s a).sentLog.map Prod.fst).Nodup ∧
      ∀ i ∈ (runPairs notify ps s a).sentLog.map Prod.fst, i ∉ s := by
  induction ps generalizing s a with
  | nil => simp [runPairs]
  | cons f rest ih =>
    simp only [runPairs, List.map_append]
    obtain ⟨n1, m1⟩ := fetch_log_nodup notify f s
    obtain ⟨n2, m2⟩ := ih ((fetch_and_process_feed notify f s).1.seen) (a || (fetch_and_process_feed notify f s).2)
    have hdis : ∀ i ∈ (fetch_and_process_feed notify f s).1.sentLog.map Prod.fst,
        i ∉ (runPairs notify rest (fetch_and_process_feed notify f s).1.seen
          (a || (fetch_and_process_feed notify f s).2)).sentLog.map Prod.fst := by
      intro i hi hir
      apply m2 i hir
      rw [fetch_seen_eq notify f s]
      exact Finset.mem_union_right _ (List.mem_toFinset.2 hi)
    refine ⟨List.Nodup.append n1 n2 (List.disjoint_left.2 hdis), ?_⟩
    intro i hi
    rcases List.mem_append.1 hi with h | h
    · exact m1 i h
    · intro his
      exact m2 i h ((fetch_seen_subset notify f s) his)

/-- `any_new_jobs` at the end of the pair list: true exactly when the
incoming flag was true or some pair succeeded at least once. -/
theorem runPairs_saved (notify : String → Bool × Nat)
    (ps : List (Option (List Entry))) (s : Finset String) (a : Bool) :
    (runPairs notify ps s a).saved = (a || decide (0 < (runPairs notify ps s a).sent)) := by
  induction ps generalizing s a with
  | nil => simp [runPairs]
  | cons f rest ih =>
    have hb := fetch_flag notify f s
    simp only [runPairs]
    rw [ih _ _]
    rcases Nat.eq_zero_or_pos (fetch_and_process_feed notify f s).1.sent with h0 | hpos
    · have hb0 : (fetch_and_process_feed notify f s).2 = false := by
        rw [hb, h0]
        simp
      simp [hb0, h0]
    · have hb1 : (fetch_and_process_feed notify f s).2 = true := by
        rw [hb]
        simp [hpos]
      simp only [hb1, Bool.or_true, Bool.true_or]
      have hpos2 : 0 < (fetch_and_process_feed notify f s).1.sent +
          (runPairs notify rest (fetch_and_process_feed notify f s).1.seen true).sent :=
        Nat.lt_of_lt_of_le hpos (Nat.le_add_right _ _)
      simp [hpos2]

/-- `load_seen_jobs` after `save_seen_jobs` recovers the set. -/
theorem load_save (s : Finset String) :
    load_seen_jobs (some (save_seen_jobs s)) = s := by
  simp only [load_seen_jobs, save_seen_jobs]
  exact Finset.sort_toFinset _ s

/-- Processing the reversed parser list step by step coincides with
consuming the parser's (newest-first) list oldest entry first. -/
theorem processEntries_reverse_chrono (notify : String → Bool × Nat)
    (es : List Entry) (seen : Finset String) :
    processEntries notify es.reverse seen = chronoProcess notify es seen := by
  induction es generalizing seen with
  | nil => rfl
  | cons e older ih =>
    rw [List.reverse_cons, processEntries_append, ih seen]
    simp only [chronoProcess]

/-- An always-failing notifier (in particular the placeholder-config
notifier) leaves the seen-set, the success count, the call count and the
log untouched over any entry list. -/
theorem processEntries_allfail (notify : String → Bool × Nat)
    (h : ∀ m, notify m = (false, 0)) (es : List Entry) (s : Finset String) :
    (processEntries notify es s).seen = s ∧
      (processEntries notify es s).sent = 0 ∧
      (processEntries notify es s).calls = 0 ∧
      (processEntries notify es s).sentLog = [] := by
  induction es generalizing s with
  | nil => simp [processEntries_nil]
  | cons e rest ih =>
    rcases hj : job_id e with _ | jid
    · rw [processEntries_cons_nolink notify rest s hj]
      simp
    · by_cases hm : jid ∈ s
      · rw [processEntries_cons_seen notify rest hj hm]
        exact ih s
      · rcases hf : format_message e with _ | msg
        · rw [processEntries_cons_notitle notify rest hj hm hf]
          simp
        · have hn : (notify msg).1 = false := by rw [h msg]
          rw [processEntries_cons_fail notify rest hj hm hf hn]
          have hc : (notify msg).2 = 0 := by rw [h msg]
          obtain ⟨i1, i2, i3, i4⟩ := ih s
          exact ⟨i1, i2, by simp [i3, hc], i4⟩

theorem runPairs_allfail (notify : String → Bool × Nat)
    (h : ∀ m, notify m = (false, 0)) (ps : List (Option (List Entry)))
    (s : Finset String) (a : Bool) :
    (runPairs notify ps s a).seen = s ∧
      (runPairs notify ps s a).sent = 0 ∧
      (runPairs notify ps s a).calls = 0 ∧
      (runPairs notify ps s a).saved = a := by
  induction ps generalizing s a with
  | nil => simp [runPairs]
  | cons f rest ih =>
    have hf : (fetch_and_process_feed notify f s).1.seen = s ∧
        (fetch_and_process_feed notify f s).1.sent = 0 ∧
        (fetch_and_process_feed notify f s).1.calls = 0 := by
      cases f with
      | none => simp [fetch_and_process_feed]
      | some es =>
        obtain ⟨i1, i2, i3, _⟩ := processEntries_allfail notify h es.reverse s
        exact ⟨i1, i2, i3⟩
    obtain ⟨f1, f2, f3⟩ := hf
    have hflag : (fetch_and_process_feed notify f s).2 = false := by
      rw [fetch_flag notify f s, f2]
      simp
    simp only [runPairs, f1, hflag, Bool.or_false]
    obtain ⟨i1, i2, i3, i4⟩ := ih s a
    exact ⟨i1, by simp [f2, i2], by simp [f3, i3], i4⟩

/-- A pair all of whose entries bear an id that is already in the seen-set
does nothing at all. -/
theorem processEntries_allseen (notify : String → Bool × Nat)
    (es : List Entry) (s : Finset String)
    (h : ∀ e ∈ es, ∃ j, job_id e = some j ∧ j ∈ s) :
    processEntries notify es s = ⟨s, 0, 0, 0, [], true⟩ := by
  induction es with
  | nil => rfl
  | cons e rest ih =>
    obtain ⟨j, hj, hm⟩ := h e (List.mem_cons_self e rest)
    rw [processEntries_cons_seen notify rest hj hm]
    exact ih (fun e' he' => h e' (List.mem_cons_of_mem e he'))

/-- Decidable form of "every (fetched) entry of every pair is already in
the seen-set `s`". -/
def allSeenPairs (pairs : List (Option (List Entry))) (s : Finset String) : Bool :=
  pairs.all fun f =>
    match f with
    | some es => es.all (fun e =>
        match job_id e with
        | some j => decide (j ∈ s)
        | none => false)
    | none => true

theorem runPairs_allseen (notify : String → Bool × Nat)
    (ps : List (Option (List Entry))) (s : Finset String) (a : Bool)
    (h : allSeenPairs ps s = true) :
    runPairs notify ps s a = ⟨s, a, 0, 0, 0, []⟩ := by
  induction ps generalizing a with
  | nil => rfl
  | cons f rest ih =>
    rw [allSeenPairs, List.all_cons, Bool.and_eq_true] at h
    obtain ⟨hf, hrest⟩ := h
    have hfr : fetch_and_process_feed notify f s = (⟨s, 0, 0, 0, [], true⟩, false) := by
      cases f with
      | none => rfl
      | some es =>
        have : ∀ e ∈ es.reverse, ∃ j, job_id e = some j ∧ j ∈ s := by
          intro e he
          rw [List.mem_reverse] at he
          have := List.all_eq_true.1 hf e he
          rcases hje : job_id e with _ | j
          · rw [hje] at this
            simp at this
          · rw [hje] at this
            exact ⟨j, rfl, of_decide_eq_true this⟩
        rw [fetch_and_process_feed, processEntries_allseen notify es.reverse s this]
        rfl
    simp only [runPairs, hfr, Bool.or_false]
    rw [ih _ hrest]
    simp

/-! ### Concrete scenarios used by witnesses and counterexamples -/

/-- A notifier oracle that reports every delivery as succeeding. -/
def notifyT : String → Bool × Nat := fun _ => (true, 1)

/-- A well-formed entry: explicit id "A", title and link present. -/
def entryA : Entry :=
  ⟨some "A", some "https://x/1", some "Junior Doctor — Cardiology",
   some "Employer: Trust X", none, none⟩

/-- A feed map serving exactly one pair (NHS Jobs, "junior doctor") with
the single entry `entryA`; every other pair fails to fetch. -/
def feedOfA : Source → String → Option (List Entry) := fun src kw =>
  if src = Source.nhs ∧ kw = "junior doctor" then some [entryA] else none

/-- Entry with id "X", first message variant (its delivery will fail). -/
def cexE1 : Entry := ⟨some "X", some "L1", some "T1", some "", none, none⟩

/-- Entry bearing the same id "X" but a different title, hence a different
message (its delivery will succeed). -/
def cexE2 : Entry := ⟨some "X", some "L2", some "T2", some "", none, none⟩

/-- Delivery succeeds exactly for `cexE2`'s message. -/
def notifyC1 : String → Bool × Nat := fun m =>
  (((format_message cexE2).getD "") == m, 1)

/-- One pair serves `cexE2` then `cexE1` in feed order, so `cexE1` is
processed first (reverse order); every other pair fails to fetch. -/
def feedOfC1 : Source → String → Option (List Entry) := fun src kw =>
  if src = Source.nhs ∧ kw = "junior doctor" then some [cexE2, cexE1] else none

/-! ### Claim theorems -/

/-- C1, counterexample to the claim as stated: in a cycle where the feed
carries two entries with the same id "X", the notification attempt for
`cexE1` is made and fails, yet after the cycle "X" is in the seen-set,
because the later entry `cexE2` bearing the same id was notified
successfully.  So an entry whose notification failed can still have its id
in the set. -/
theorem claim_C1_counterexample :
    feedOfC1 Source.nhs "junior doctor" = some [cexE2, cexE1]
    ∧ job_id cexE1 = some "X"
    ∧ "X" ∉ load_seen_jobs none
    ∧ (format_message cexE1).isSome = true
    ∧ (notifyC1 ((format_message cexE1).getD "")).1 = false
    ∧ (check_for_new_jobs notifyC1 feedOfC1 none).attempts = 2
    ∧ (check_for_new_jobs notifyC1 feedOfC1 none).sent = 1
    ∧ "X" ∈ (check_for_new_jobs notifyC1 feedOfC1 none).seen := by
  decide

/-- C1, amended: after a cycle the in-memory seen-set is exactly the
loaded set united with the ids of the entries whose notification succeeded
during the cycle — every successfully notified entry's id is in the set,
an id enters the set only through a successful notification for an entry
bearing it, and ids are never removed.  (The original claim's further
assertion that an entry whose own attempt failed never has its id in the
set fails when another entry with the same id succeeds, see the
counterexample.) -/
theorem claim_C1_amended (notify : String → Bool × Nat)
    (feedOf : Source → String → Option (List Entry))
    (fileData : Option (List String)) :
    (check_for_new_jobs notify feedOf fileData).seen =
      load_seen_jobs fileData ∪
        ((check_for_new_jobs notify feedOf fileData).sentLog.map Prod.fst).toFinset :=
  runPairs_seen_eq notify (cyclePairs feedOf) (load_seen_jobs fileData) false

/-- C3: the store is rewritten at cycle end iff at least one notification
succeeded during the cycle; and a cycle whose fetched entries all already
carry ids in the loaded seen-set performs zero deliveries, leaves the
seen-set equal to its loaded value, and does not write the store. -/
theorem claim_C3 (notify : String → Bool × Nat)
    (feedOf : Source → String → Option (List Entry))
    (fileData : Option (List String)) :
    ((check_for_new_jobs notify feedOf fileData).saved = true ↔
      0 < (check_for_new_jobs notify feedOf fileData).sent)
    ∧ (allSeenPairs (cyclePairs feedOf) (load_seen_jobs fileData) = true →
        (check_for_new_jobs notify feedOf fileData).sent = 0
        ∧ (check_for_new_jobs notify feedOf fileData).seen = load_seen_jobs fileData
        ∧ (check_for_new_jobs notify feedOf fileData).saved = false) := by
  constructor
  · rw [check_for_new_jobs,
      runPairs_saved notify (cyclePairs feedOf) (load_seen_jobs fileData) false]
    simp
  · intro h
    rw [check_for_new_jobs,
      runPairs_allseen notify (cyclePairs feedOf) (load_seen_jobs fileData) false h]
    exact ⟨rfl, rfl, rfl⟩

/-- C6: for every fetched feed the entries are consumed, and notifications
emitted, in the reverse of the parser's order — the pair's outcome equals
the oldest-first (spec-side) processing `chronoProcess` of the parser
list. -/
theorem claim_C6 (notify : String → Bool × Nat) (es : List Entry)
    (seen : Finset String) :
    fetch_and_process_feed notify (some es) seen =
      (chronoProcess notify es seen,
       decide (0 < (chronoProcess notify es seen).sent)) := by
  rw [fetch_and_process_feed, processEntries_reverse_chrono notify es seen]

/-- C7: with an unset/placeholder token or chat id the notifier makes no
HTTP call and returns failure for every message (it returns a boolean
rather than raising), so over a whole cycle nothing is added to the
seen-set, nothing is delivered, and the store is not written — every such
entry stays eligible for a later retry. -/
theorem claim_C7 (cfg : Config) (post : String → Bool)
    (feedOf : Source → String → Option (List Entry))
    (fileData : Option (List String))
    (h : cfg.bot_token = "YOUR_BOT_TOKEN" ∨ cfg.chat_id = "YOUR_CHAT_ID") :
    (∀ m, send_telegram_message cfg post m = (false, 0))
    ∧ (check_for_new_jobs (send_telegram_message cfg post) feedOf fileData).seen =
        load_seen_jobs fileData
    ∧ (check_for_new_jobs (send_telegram_message cfg post) feedOf fileData).sent = 0
    ∧ (check_for_new_jobs (send_telegram_message cfg post) feedOf fileData).calls = 0
    ∧ (check_for_new_jobs (send_telegram_message cfg post) feedOf fileData).saved = false := by
  have hsend : ∀ m, send_telegram_message cfg post m = (false, 0) := by
    intro m
    rw [send_telegram_message, if_pos h]
  obtain ⟨h1, h2, h3, h4⟩ := runPairs_allfail (send_telegram_message cfg post) hsend
    (cyclePairs feedOf) (load_seen_jobs fileData) false
  exact ⟨hsend, h1, h2, h3, h4⟩

/-- C7 witness: the placeholder token with a configured chat id, an
always-2xx transport, one feed pair carrying a novel entry. -/
theorem claim_C7_witness :
    (Config.mk "YOUR_BOT_TOKEN" "12345").bot_token = "YOUR_BOT_TOKEN"
    ∧ ((∀ m, send_telegram_message ⟨"YOUR_BOT_TOKEN", "12345"⟩ (fun _ => true) m = (false, 0))
      ∧ (check_for_new_jobs (send_telegram_message ⟨"YOUR_BOT_TOKEN", "12345"⟩ (fun _ => true))
          feedOfA none).seen = load_seen_jobs none
      ∧ (check_for_new_jobs (send_telegram_message ⟨"YOUR_BOT_TOKEN", "12345"⟩ (fun _ => true))
          feedOfA none).sent = 0
      ∧ (check_for_new_jobs (send_telegram_message ⟨"YOUR_BOT_TOKEN", "12345"⟩ (fun _ => true))
          feedOfA none).calls = 0
      ∧ (check_for_new_jobs (send_telegram_message ⟨"YOUR_BOT_TOKEN", "12345"⟩ (fun _ => true))
          feedOfA none).saved = false) :=
  ⟨rfl, claim_C7 ⟨"YOUR_BOT_TOKEN", "12345"⟩ (fun _ => true) feedOfA none (Or.inl rfl)⟩

/-- C8: persistence round-trip — for a non-empty set of job-id strings,
loading back what was saved yields an equal set, whatever order the
elements were written to disk in. -/
theorem claim_C8 (s : Finset String) (l : List String) (_h1 : s.Nonempty)
    (h2 : l.Perm (save_seen_jobs s)) :
    load_seen_jobs (some l) = s := by
  rw [load_seen_jobs, List.toFinset_eq_of_perm l (save_seen_jobs s) h2]
  exact load_save s

/-- C8 witness: the singleton set {"A"} written as the list ["A"]. -/
theorem claim_C8_witness :
    ({"A"} : Finset String).Nonempty ∧ load_seen_jobs (some ["A"]) = {"A"} :=
  ⟨⟨"A", by simp⟩,
   claim_C8 {"A"} ["A"] ⟨"A", by simp⟩
     (by rw [save_seen_jobs, Finset.sort_singleton])⟩

/-- C9: within one cycle a job id is successfully notified at most once,
even when entries with that id occur in several (source, keyword) pairs:
the ids in the cycle's success log are pairwise distinct, because all
pairs share the one in-memory seen-set that each success updates
immediately. -/
theorem claim_C9 (notify : String → Bool × Nat)
    (feedOf : Source → String → Option (List Entry))
    (fileData : Option (List String)) :
    ((check_for_new_jobs notify feedOf fileData).sentLog.map Prod.fst).Nodup :=
  (runPairs_log_nodup notify (cyclePairs feedOf) (load_seen_jobs fileData) false).1

/-- C3 witness: the seen-set {"A"} loaded from disk, the only fetchable
pair serving the single entry with id "A". -/
theorem claim_C3_witness :
    allSeenPairs (cyclePairs feedOfA) (load_seen_jobs (some ["A"])) = true
    ∧ ((check_for_new_jobs notifyT feedOfA (some ["A"])).sent = 0
      ∧ (check_for_new_jobs notifyT feedOfA (some ["A"])).seen = load_seen_jobs (some ["A"])
      ∧ (check_for_new_jobs notifyT feedOfA (some ["A"])).saved = false) :=
  ⟨by decide, (claim_C3 notifyT feedOfA (some ["A"])).2 (by decide)⟩

/-! ### Second-run (idempotence) machinery for C2 -/

/-- An entry that can be processed without raising: both the id
computation (`link` present) and the message formatting (`title` present)
are defined. -/
def entryWF (e : Entry) : Bool :=
  (job_id e).isSome && (format_message e).isSome

/-- Every entry of every successfully fetched pair is well formed. -/
def pairsWF (pairs : List (Option (List Entry))) : Bool :=
  pairs.all fun f =>
    match f with
    | some es => es.all entryWF
    | none => true

/-- If a pair's entries are all well formed and every notification the
pair attempted succeeded, then re-running the pair from any seen-set that
contains the first run's final seen-set does nothing: every entry is
skipped as already seen. -/
theorem processEntries_second (notify : String → Bool × Nat)
    (es : List Entry) (s s2 : Finset String)
    (hwf : ∀ e ∈ es, entryWF e = true)
    (hs : (processEntries notify es s).attempts = (processEntries notify es s).sent)
    (hsub : (processEntries notify es s).seen ⊆ s2) :
    processEntries notify es s2 = ⟨s2, 0, 0, 0, [], true⟩ := by
  induction es generalizing s s2 with
  | nil => rfl
  | cons e rest ih =>
    have hwfe := hwf e (List.mem_cons_self e rest)
    rw [entryWF, Bool.and_eq_true, Option.isSome_iff_exists,
      Option.isSome_iff_exists] at hwfe
    obtain ⟨⟨jid, hj⟩, ⟨msg, hf⟩⟩ := hwfe
    have hwfr : ∀ e' ∈ rest, entryWF e' = true :=
      fun e' he' => hwf e' (List.mem_cons_of_mem e he')
    by_cases hm : jid ∈ s
    · rw [processEntries_cons_seen notify rest hj hm] at hs hsub
      have hm2 : jid ∈ s2 :=
        hsub ((processEntries_seen_subset notify rest s) hm)
      rw [processEntries_cons_seen notify rest hj hm2]
      exact ih s s2 hwfr hs hsub
    · by_cases hn : (notify msg).1
      · rw [processEntries_cons_sent notify rest hj hm hf hn] at hs hsub
        simp only at hs hsub
        have hs' : (processEntries notify rest (insert jid s)).attempts =
            (processEntries notify rest (insert jid s)).sent := by omega
        have hm2 : jid ∈ s2 :=
          hsub ((processEntries_seen_subset notify rest (insert jid s))
            (Finset.mem_insert_self jid s))
        rw [processEntries_cons_seen notify rest hj hm2]
        exact ih (insert jid s) s2 hwfr hs' hsub
      · rw [processEntries_cons_fail notify rest hj hm hf
          (Bool.not_eq_true _ ▸ hn)] at hs
        simp only at hs
        have := processEntries_sent_le notify rest s
        omega

/-- Lifting of `processEntries_second` to one fetched pair. -/
theorem fetch_second (notify : String → Bool × Nat)
    (f : Option (List Entry)) (s s2 : Finset String)
    (hwf : ∀ es, f = some es → ∀ e ∈ es, entryWF e = true)
    (hs : (fetch_and_process_feed notify f s).1.attempts =
      (fetch_and_process_feed notify f s).1.sent)
    (hsub : (fetch_and_process_feed notify f s).1.seen ⊆ s2) :
    fetch_and_process_feed notify f s2 = (⟨s2, 0, 0, 0, [], true⟩, false) := by
  cases f with
  | none => rfl
  | some es =>
    have hwf' : ∀ e ∈ es.reverse, entryWF e = true := by
      intro e he
      exact hwf es rfl e (List.mem_reverse.1 he)
    rw [fetch_and_process_feed] at hs hsub ⊢
    rw [processEntries_second notify es.reverse s s2 hwf' hs hsub]
    rfl

/-- Lifting to the whole pair list: a second run over any superset of the
first run's final seen-set attempts nothing, changes nothing and saves
nothing. -/
theorem runPairs_second (notify : String → Bool × Nat)
    (ps : List (Option (List Entry))) (s s2 : Finset String) (a a2 : Bool)
    (hwf : pairsWF ps = true)
    (hs : (runPairs notify ps s a).attempts = (runPairs notify ps s a).sent)
    (hsub : (runPairs notify ps s a).seen ⊆ s2) :
    runPairs notify ps s2 a2 = ⟨s2, a2, 0, 0, 0, []⟩ := by
  induction ps generalizing s s2 a a2 with
  | nil => rfl
  | cons f rest ih =>
    rw [pairsWF, List.all_cons, Bool.and_eq_true] at hwf
    obtain ⟨hwff, hwfr⟩ := hwf
    have hwff' : ∀ es, f = some es → ∀ e ∈ es, entryWF e = true := by
      intro es hes e he
      subst hes
      exact List.all_eq_true.1 hwff e he
    simp only [runPairs] at hs hsub
    have hle1 := fetch_sent_le notify f s
    have hle2 := runPairs_sent_le notify rest
      (fetch_and_process_feed notify f s).1.seen
      (a || (fetch_and_process_feed notify f s).2)
    have hsf : (fetch_and_process_feed notify f s).1.attempts =
        (fetch_and_process_feed notify f s).1.sent := by omega
    have hsr : (runPairs notify rest (fetch_and_process_feed notify f s).1.seen
        (a || (fetch_and_process_feed notify f s).2)).attempts =
        (runPairs notify rest (fetch_and_process_feed notify f s).1.seen
          (a || (fetch_and_process_feed notify f s).2)).sent := by omega
    have hsubf : (fetch_and_process_feed notify f s).1.seen ⊆ s2 :=
      (runPairs_seen_subset notify rest _ _).trans hsub
    rw [runPairs, fetch_second notify f s s2 hwff' hsf hsubf]
    simp only [Bool.or_false]
    rw [ih _ s2 _ a2 (by rw [pairsWF]; exact hwfr) hsr hsub]
    simp

/-- Entry with id "X" and no `title` attribute: formatting it raises. -/
def eXbad : Entry := ⟨some "X", some "LX", none, some "", none, none⟩

/-- Well-formed entry with id "Y". -/
def eY : Entry := ⟨some "Y", some "LY", some "TY", some "", none, none⟩

/-- Well-formed entry bearing the same id "X" as `eXbad`. -/
def eXgood : Entry := ⟨some "X", some "LX2", some "TX", some "", none, none⟩

/-- Pair (NHS Jobs, "junior doctor") serves `[eY, eXbad]` (so `eXbad` is
processed first), pair (NHS Jobs, "clinical fellow") serves `[eXgood]`;
every other pair fails to fetch. -/
def feedOfC2 : Source → String → Option (List Entry) := fun src kw =>
  if src = Source.nhs ∧ kw = "junior doctor" then some [eY, eXbad]
  else if src = Source.nhs ∧ kw = "clinical fellow" then some [eXgood]
  else none

/-- C2, counterexample to the claim as stated: pair 1's feed holds (in
processing order) an entry with id "X" but no `title` — formatting it
raises, aborting the pair before its second entry with id "Y" — and pair 2
successfully notifies an entry with the same id "X".  Every notification
the first run attempted succeeded, yet a second run against the unchanged
feeds and the seen-set produced by the first run skips the aborting entry
(its id "X" is now seen), reaches "Y" and delivers one more notification. -/
theorem claim_C2_counterexample :
    (check_for_new_jobs notifyT feedOfC2 none).attempts =
      (check_for_new_jobs notifyT feedOfC2 none).sent
    ∧ load_seen_jobs (some ["X"]) = (check_for_new_jobs notifyT feedOfC2 none).seen
    ∧ (check_for_new_jobs notifyT feedOfC2 (some ["X"])).sent = 1 := by
  decide

/-- C2, amended: a cycle is idempotent provided additionally that every
entry of every fetched feed can be processed without raising (has both a
computable id and a formattable message): if every notification the first
run attempted succeeded, a second run against the same feeds and the
persisted seen-set of the first run attempts nothing, delivers nothing,
leaves the set unchanged and does not save. -/
theorem claim_C2_amended (notify : String → Bool × Nat)
    (feedOf : Source → String → Option (List Entry))
    (fileData : Option (List String))
    (hwf : pairsWF (cyclePairs feedOf) = true)
    (hs : (check_for_new_jobs notify feedOf fileData).attempts =
      (check_for_new_jobs notify feedOf fileData).sent) :
    check_for_new_jobs notify feedOf
        (some (save_seen_jobs (check_for_new_jobs notify feedOf fileData).seen)) =
      ⟨(check_for_new_jobs notify feedOf fileData).seen, false, 0, 0, 0, []⟩ := by
  rw [check_for_new_jobs, load_save]
  exact runPairs_second notify (cyclePairs feedOf) (load_seen_jobs fileData)
    (check_for_new_jobs notify feedOf fileData).seen false false hwf hs
    (Finset.Subset.refl _)

/-- C2 witness: one pair with one well-formed novel entry, all deliveries
succeeding. -/
theorem claim_C2_amended_witness :
    pairsWF (cyclePairs feedOfA) = true
    ∧ (check_for_new_jobs notifyT feedOfA none).attempts =
        (check_for_new_jobs notifyT feedOfA none).sent
    ∧ check_for_new_jobs notifyT feedOfA
        (some (save_seen_jobs (check_for_new_jobs notifyT feedOfA none).seen)) =
      ⟨(check_for_new_jobs notifyT feedOfA none).seen, false, 0, 0, 0, []⟩ :=
  ⟨by decide, by decide, claim_C2_amended notifyT feedOfA none (by decide) (by decide)⟩

/-- C5: with the title-based keyword filter enabled, an entry whose title
contains no configured keyword as a case-insensitive substring is never
notified: the filtered entry loop treats it exactly as if it were not
there — no attempt, no delivery, no change to the seen-set. -/
theorem claim_C5 (notify : String → Bool × Nat) (rest : List Entry)
    (seen : Finset String) (e : Entry) (jid t : String)
    (hj : job_id e = some jid) (ht : e.title = some t)
    (hrel : titleRelevant SEARCH_KEYWORDS t = false) :
    processEntriesFiltered notify SEARCH_KEYWORDS (e :: rest) seen =
      processEntriesFiltered notify SEARCH_KEYWORDS rest seen := by
  by_cases hm : jid ∈ seen
  · simp [processEntriesFiltered, hj, hm]
  · simp [processEntriesFiltered, hj, hm, ht, hrel]

/-- Entry whose title "Zzz gardener" matches none of the configured
keywords. -/
def cexE5 : Entry := ⟨some "G", some "LG", some "Zzz gardener", some "", none, none⟩

/-- C5 witness: a title without any configured keyword is skipped by the
filtered loop. -/
theorem claim_C5_witness :
    job_id cexE5 = some "G"
    ∧ cexE5.title = some "Zzz gardener"
    ∧ titleRelevant SEARCH_KEYWORDS "Zzz gardener" = false
    ∧ processEntriesFiltered notifyT SEARCH_KEYWORDS [cexE5] ∅ =
        processEntriesFiltered notifyT SEARCH_KEYWORDS [] ∅ :=
  ⟨by decide, rfl, by decide,
   claim_C5 notifyT [] ∅ cexE5 "G" "Zzz gardener" (by decide) rfl (by decide)⟩

/-- C10: when processing reaches a novel entry that lacks a `title` or
`link` attribute, the access raises; the per-pair handler catches it, so
the pair ends there — all later-positioned entries are skipped for this
cycle — while the ids already added and the success count are kept, and
the pair still reports whether any notification succeeded. -/
theorem claim_C10 (notify : String → Bool × Nat)
    (F pre post : List Entry) (e : Entry) (seen : Finset String)
    (horder : F.reverse = pre ++ e :: post)
    (hmiss : e.link = none ∨ e.title = none)
    (hok : (processEntries notify pre seen).ok = true)
    (hnov : ∀ jid, job_id e = some jid →
      jid ∉ (processEntries notify pre seen).seen) :
    fetch_and_process_feed notify (some F) seen =
      (⟨(processEntries notify pre seen).seen,
        (processEntries notify pre seen).sent,
        (processEntries notify pre seen).attempts,
        (processEntries notify pre seen).calls,
        (processEntries notify pre seen).sentLog, false⟩,
       decide (0 < (processEntries notify pre seen).sent)) := by
  have hstep : processEntries notify (e :: post) (processEntries notify pre seen).seen =
      ⟨(processEntries notify pre seen).seen, 0, 0, 0, [], false⟩ := by
    rcases hl : e.link with _ | l
    · have hj : job_id e = none := by rw [job_id, hl]
      exact processEntries_cons_nolink notify post _ hj
    · rcases hmiss with hml | hmt
      · rw [hml] at hl
        cases hl
      · have hj : job_id e = some (e.idAttr.getD l) := by rw [job_id, hl]
        have hfm : format_message e = none := by rw [format_message, hmt]
        exact processEntries_cons_notitle notify post hj (hnov _ hj) hfm
  rw [fetch_and_process_feed, horder, processEntries_append, if_pos hok, hstep]
  rw [PairResult.seq]
  simp

/-- Entry with id "G1", well formed. -/
def eG1 : Entry := ⟨some "G1", some "LG1", some "TG1", some "", none, none⟩

/-- Entry with id "B" and no `title`: processing it raises. -/
def eBad : Entry := ⟨some "B", some "LB", none, some "", none, none⟩

/-- Entry with id "G2", well formed but positioned after `eBad`. -/
def eG2 : Entry := ⟨some "G2", some "LG2", some "TG2", some "", none, none⟩

/-- C10 witness: the feed `[eG2, eBad, eG1]` is processed as
`[eG1, eBad, eG2]`; `eG1` is notified, `eBad` raises, `eG2` is skipped,
and the pair keeps `eG1`'s id and reports success. -/
theorem claim_C10_witness :
    ([eG2, eBad, eG1] : List Entry).reverse = [eG1] ++ eBad :: [eG2]
    ∧ eBad.title = none
    ∧ (processEntries notifyT [eG1] ∅).ok = true
    ∧ job_id eBad = some "B"
    ∧ "B" ∉ (processEntries notifyT [eG1] ∅).seen
    ∧ fetch_and_process_feed notifyT (some [eG2, eBad, eG1]) ∅ =
        (⟨(processEntries notifyT [eG1] ∅).seen,
          (processEntries notifyT [eG1] ∅).sent,
          (processEntries notifyT [eG1] ∅).attempts,
          (processEntries notifyT [eG1] ∅).calls,
          (processEntries notifyT [eG1] ∅).sentLog, false⟩,
         decide (0 < (processEntries notifyT [eG1] ∅).sent)) :=
  ⟨by decide, rfl, by decide, by decide, by decide,
   claim_C10 notifyT [eG2, eBad, eG1] [eG1] [eG2] eBad ∅ (by decide)
     (Or.inr rfl) (by decide)
     (by
       intro jid h
       rw [job_id] at h
       simp only [eBad, Option.getD] at h
       cases h
       decide)⟩

/-! ### Presence characterization of the labelled-field search (C4) -/

/-- The head of a non-empty `dropWhile` result is an element of the list
at which the predicate fails. -/
theorem dropWhile_head_mem {p : Char → Bool} :
    ∀ {t c : List Char} {d : Char}, t.dropWhile p = d :: c →
      d ∈ t ∧ p d = false := by
  intro t
  induction t with
  | nil =>
    intro c d h
    simp [List.dropWhile] at h
  | cons a t ih =>
    intro c d h
    rw [List.dropWhile_cons] at h
    by_cases ha : p a
    · rw [if_pos ha] at h
      obtain ⟨hm, hf⟩ := ih h
      exact ⟨List.mem_cons_of_mem a hm, hf⟩
    · rw [if_neg ha] at h
      cases h
      exact ⟨List.mem_cons_self a t, Bool.not_eq_true _ ▸ ha⟩

/-- The engine matches something after the label exactly when the text
following the label contains some character other than a newline. -/
theorem matchAfter_isSome (t : List Char) :
    (matchAfter t).isSome = true ↔ ∃ c ∈ t, c ≠ '\n' := by
  cases hr : t.dropWhile sepChar with
  | cons d ds =>
    obtain ⟨hmem, hns⟩ := dropWhile_head_mem hr
    have hdn : d ≠ '\n' := by
      intro hd
      rw [hd] at hns
      simp [sepChar, pyWs] at hns
    constructor
    · intro _
      exact ⟨d, hmem, hdn⟩
    · intro _
      simp [matchAfter, hr]
  | nil =>
    simp only [matchAfter, hr]
    cases hgl : (t.filter (fun d => d != '\n')).getLast? with
    | some c =>
      simp only [Option.isSome_some, true_iff]
      have h2 : c ∈ (t.filter (fun d => d != '\n')).getLast? := by
        rw [Option.mem_def]
        exact hgl
      obtain ⟨hne, heq⟩ := List.mem_getLast?_eq_getLast h2
      have hcf : c ∈ t.filter (fun d => d != '\n') := by
        rw [heq]
        exact List.getLast_mem hne
      rw [List.mem_filter] at hcf
      exact ⟨c, hcf.1, bne_iff_ne.1 hcf.2⟩
    | none =>
      simp only [Option.isSome_none, Bool.false_eq_true, false_iff]
      rintro ⟨c, hct, hcn⟩
      have hnil : t.filter (fun d => d != '\n') = [] :=
        List.getLast?_eq_none_iff.1 hgl
      have : c ∈ t.filter (fun d => d != '\n') :=
        List.mem_filter.2 ⟨hct, bne_iff_ne.2 hcn⟩
      rw [hnil] at this
      cases this

/-- `re.search` for a label succeeds exactly when the text decomposes as
anything, then the label up to ASCII case, then a tail containing at least
one non-newline character. -/
theorem searchLabel_isSome (label : List Char) (s : List Char) :
    (searchLabel label s).isSome = true ↔
      ∃ a m b : List Char, s = a ++ m ++ b
        ∧ m.map lowerAscii = label.map lowerAscii
        ∧ ∃ c ∈ b, c ≠ '\n' := by
  induction s with
  | nil =>
    simp only [searchLabel, Option.isSome_none, Bool.false_eq_true, false_iff]
    rintro ⟨a, m, b, habs, -, c, hcb, -⟩
    rcases List.append_eq_nil.1 habs.symm with ⟨-, hb⟩
    subst hb
    cases hcb
  | cons ch rest ih =>
    constructor
    · intro hsome
      rw [searchLabel] at hsome
      by_cases hmc : matchesCI label (ch :: rest)
      · rw [if_pos hmc] at hsome
        cases hma : matchAfter ((ch :: rest).drop label.length) with
        | some g =>
          have hm : ((ch :: rest).take label.length).map lowerAscii =
              label.map lowerAscii := beq_iff_eq.1 hmc
          refine ⟨[], (ch :: rest).take label.length,
            (ch :: rest).drop label.length, ?_, hm, ?_⟩
          · rw [List.nil_append, List.take_append_drop]
          · rw [← matchAfter_isSome]
            rw [hma]
            rfl
        | none =>
          rw [hma] at hsome
          obtain ⟨a, m, b, h1, h2, h3⟩ := ih.1 hsome
          exact ⟨ch :: a, m, b, by rw [h1]; rfl, h2, h3⟩
      · rw [if_neg hmc] at hsome
        obtain ⟨a, m, b, h1, h2, h3⟩ := ih.1 hsome
        exact ⟨ch :: a, m, b, by rw [h1]; rfl, h2, h3⟩
    · rintro ⟨a, m, b, h1, h2, h3⟩
      cases a with
      | nil =>
        rw [List.nil_append] at h1
        have hlen : m.length = label.length := by
          have := congrArg List.length h2
          simpa using this
        have htake : (ch :: rest).take label.length = m := by
          rw [h1, ← hlen, List.take_left]
        have hdrop : (ch :: rest).drop label.length = b := by
          rw [h1, ← hlen, List.drop_left]
        have hmc : matchesCI label (ch :: rest) = true := by
          rw [matchesCI, htake, beq_iff_eq]
          exact h2
        have hms : (matchAfter ((ch :: rest).drop label.length)).isSome = true := by
          rw [hdrop, matchAfter_isSome]
          exact h3
        rw [searchLabel, if_pos hmc]
        cases hma : matchAfter ((ch :: rest).drop label.length) with
        | some g => rfl
        | none =>
          rw [hma] at hms
          cases hms
      | cons a0 a' =>
        have hch : a0 = ch := by
          have := congrArg (fun l => l.head?) h1
          simpa using this.symm
        have hrest : rest = a' ++ m ++ b := by
          have := congrArg List.tail h1
          simpa using this
        have hsub : (searchLabel label rest).isSome = true :=
          ih.2 ⟨a', m, b, hrest, h2, h3⟩
        rw [searchLabel]
        by_cases hmc : matchesCI label (ch :: rest)
        · rw [if_pos hmc]
          cases hma : matchAfter ((ch :: rest).drop label.length) with
          | some g => rfl
          | none => exact hsub
        · rw [if_neg hmc]
          exact hsub

/-- The label-occurrence condition under which a field is extracted: the
markup-stripped summary contains the label up to ASCII case, followed by
at least one non-newline character (a colon after the label is optional —
the separator `[:\s]*` matches the empty string). -/
def labelPresent (label : String) (s : List Char) : Prop :=
  ∃ a m b : List Char, s = a ++ m ++ b
    ∧ m.map lowerAscii = label.data.map lowerAscii
    ∧ ∃ c ∈ b, c ≠ '\n'

/-- A field of `extract_job_details` is present iff its label is present
in the above sense. -/
theorem reFieldSearch_isSome (label : String) (snippet : List Char) :
    (reFieldSearch label snippet).isSome = true ↔ labelPresent label snippet := by
  have hmap : (reFieldSearch label snippet).isSome =
      (searchLabel label.data snippet).isSome := by
    rw [reFieldSearch]
    cases searchLabel label.data snippet <;> rfl
  rw [hmap]
  unfold labelPresent
  exact searchLabel_isSome label.data snippet

/-- Summary containing the label with no colon at all. -/
def cexE4a : Entry := ⟨none, none, none, some "EmployerX", none, none⟩

/-- Summary where a newline directly follows the label's colon. -/
def cexE4b : Entry := ⟨none, none, none, some "Employer:\nAcme", none, none⟩

/-- The spec's own extraction test vector. -/
def vecEntry : Entry :=
  ⟨none, none, none, some "Employer: Acme NHS Trust\nSalary: £40000", none, none⟩

/-- An entry with no summary and no description at all. -/
def emptyEntry : Entry := ⟨none, none, none, none, none, none⟩

/-- C4, counterexample to the claim as stated: the summary "EmployerX"
contains no occurrence of the label followed by a colon (case-insensitive),
yet the employer field is extracted (as "X"); and in "Employer:\nAcme" the
text after the label up to the first newline is just the colon, yet the
extracted value is "Acme" from beyond the newline — the separator `[:\s]*`
makes the colon optional and may swallow newlines. -/
theorem claim_C4_counterexample :
    (extract_job_details cexE4a).employer = some "X"
    ∧ containsSub ("EmployerX".data.map lowerAscii)
        ("Employer:".data.map lowerAscii) = false
    ∧ (extract_job_details cexE4b).employer = some "Acme" := by
  decide

/-- C4, amended: each of the four fields is present iff the
markup-stripped summary contains the label case-insensitively followed by
at least one non-newline character — the colon is optional, since the
separator `[:\s]*` matches zero or more colons/whitespace (including
newlines), and the value is the text from the first non-separator
character after the label up to the next newline or the end, trimmed.
Extraction never fails: on the spec's test vector it yields exactly
employer "Acme NHS Trust" and salary "£40000" with the other fields
absent, and on an entry with no summary at all it yields every field
absent. -/
theorem claim_C4_amended :
    (∀ e : Entry,
      ((extract_job_details e).employer.isSome = true ↔
        labelPresent "Employer" (stripTags (entrySnippetRaw e).data))
      ∧ ((extract_job_details e).specialty.isSome = true ↔
        labelPresent "Specialty" (stripTags (entrySnippetRaw e).data))
      ∧ ((extract_job_details e).salary.isSome = true ↔
        labelPresent "Salary" (stripTags (entrySnippetRaw e).data))
      ∧ ((extract_job_details e).location.isSome = true ↔
        labelPresent "Location" (stripTags (entrySnippetRaw e).data)))
    ∧ (extract_job_details vecEntry).employer = some "Acme NHS Trust"
    ∧ (extract_job_details vecEntry).salary = some "£40000"
    ∧ (extract_job_details vecEntry).specialty = none
    ∧ (extract_job_details vecEntry).location = none
    ∧ extract_job_details emptyEntry = ⟨"", none, none, none, none⟩ := by
  refine ⟨?_, by decide, by decide, by decide, by decide, by decide⟩
  intro e
  exact ⟨reFieldSearch_isSome "Employer" (stripTags (entrySnippetRaw e).data),
    reFieldSearch_isSome "Specialty" (stripTags (entrySnippetRaw e).data),
    reFieldSearch_isSome "Salary" (stripTags (entrySnippetRaw e).data),
    reFieldSearch_isSome "Location" (stripTags (entrySnippetRaw e).data)⟩

end Medbot
